import Mathlib

set_option maxRecDepth 8000

/-!
Shallow embedding of the interval-workout timer's workout model
(`timer-storage`), timeline builders, editor operations and playback
state machine, with theorems checking the specification's claims.

Conventions: TypeScript numbers that the data model constrains to
non-negative integer seconds (durations, warmup/cooldown, offsets) are
embedded as `Nat`; wall-clock instants (`Date.now()`) are `Nat`
milliseconds; `Math.floor(x / 1000)` on non-negative values is `Nat`
division; optional fields are `Option`; the TS union `Exercise | Set |
Rest` is the inductive `WorkoutItem` and the union `Exercise | Rest` is
`FlatItem`.
-/

/-- The source's `IntensityLevel = "low" | "medium" | "high"`. -/
inductive IntensityLevel where
  | low
  | medium
  | high
deriving DecidableEq, Repr

/-- The de-facto exercise/step type domain: the declared union is
`"running" | "walking"`, but `Rest` nodes carry `type: "rest"` and the
timer/view pages handle all three (`exerciseTypeLabels` maps all three). -/
inductive ExerciseType where
  | running
  | walking
  | rest
deriving DecidableEq, Repr

/-- The `Exercise` interface. -/
structure Exercise where
  id : String
  type : ExerciseType
  duration : Nat
  intensity : Option IntensityLevel
  name : Option String
deriving DecidableEq, Repr

/-- The `Rest` interface. -/
structure Rest where
  id : String
  duration : Nat
  name : Option String
deriving DecidableEq, Repr

/-- The recursive `WorkoutItem = Exercise | Set | Rest` union; a `Set`
owns `repetitions` and an ordered list of child items. -/
inductive WorkoutItem where
  | exercise (e : Exercise)
  | rest (r : Rest)
  | set (id : String) (repetitions : Nat) (items : List WorkoutItem) (name : Option String)
deriving Repr

/-- The `id` field common to all three variants. -/
def WorkoutItem.id : WorkoutItem → String
  | .exercise e => e.id
  | .rest r => r.id
  | .set i _ _ _ => i

/-- The `WorkoutPlan` root aggregate. -/
structure WorkoutPlan where
  id : String
  name : String
  description : String
  warmupTime : Nat
  cooldownTime : Nat
  items : List WorkoutItem
  createdAt : Nat
  updatedAt : Nat
deriving Repr

/-- The union `Exercise | Rest`: an atomic entry of a flattened workout. -/
inductive FlatItem where
  | exercise (e : Exercise)
  | rest (r : Rest)
deriving DecidableEq, Repr

/-- The source's `item.duration` on a flattened entry. -/
def FlatItem.duration : FlatItem → Nat
  | .exercise e => e.duration
  | .rest r => r.duration

/-- The source's `l ++ l ++ ... ++ l` (`n` copies): the effect of the
`for (let rep = 0; rep < repetitions; rep++)` outer loop. -/
def joinN : Nat → List α → List α
  | 0, _ => []
  | n + 1, l => l ++ joinN n l

mutual

/-- The source's `flattenWorkout`'s per-item contribution: a `Set` is replaced by the
recursive flattening of its children with its own repetitions
(`result.push(...flattenWorkout(item.items, item.repetitions))`); an
`Exercise` or `Rest` is pushed verbatim. -/
def flattenItem : WorkoutItem → List FlatItem
  | .exercise e => [.exercise e]
  | .rest r => [.rest r]
  | .set _ reps children _ => joinN reps (flattenOnce children)
termination_by i => (sizeOf i, 0)

/-- One pass of `flattenWorkout`'s inner `for (const item of items)` loop. -/
def flattenOnce : List WorkoutItem → List FlatItem
  | [] => []
  | it :: rest => flattenItem it ++ flattenOnce rest
termination_by l => (sizeOf l, 1)

end

/-- The source's `flattenWorkout(items, repetitions)` (the default call passes 1). -/
def flattenWorkout (items : List WorkoutItem) (repetitions : Nat) : List FlatItem :=
  joinN repetitions (flattenOnce items)

theorem joinN_eq_flatten_replicate (r : Nat) (l : List α) :
    joinN r l = (List.replicate r l).flatten := by
  induction r with
  | zero => rfl
  | succ n ih => simp [joinN, List.replicate_succ, ih]

theorem joinN_nil (r : Nat) : joinN r ([] : List α) = [] := by
  induction r with
  | zero => rfl
  | succ n ih => simp [joinN, ih]

theorem joinN_add (m n : Nat) (l : List α) :
    joinN (m + n) l = joinN m l ++ joinN n l := by
  induction m with
  | zero => simp [joinN]
  | succ k ih => simp [Nat.succ_add, joinN, ih]

theorem joinN_mul (m n : Nat) (l : List α) :
    joinN m (joinN n l) = joinN (m * n) l := by
  induction m with
  | zero => simp [joinN]
  | succ k ih => rw [joinN, ih, Nat.succ_mul, Nat.add_comm, joinN_add]

theorem flattenOnce_eq_flatMap (items : List WorkoutItem) :
    flattenOnce items = (items.map flattenItem).flatten := by
  induction items with
  | nil => simp [flattenOnce]
  | cons it rest ih => simp [flattenOnce, ih]

theorem flattenOnce_append (l₁ l₂ : List WorkoutItem) :
    flattenOnce (l₁ ++ l₂) = flattenOnce l₁ ++ flattenOnce l₂ := by
  induction l₁ with
  | nil => simp [flattenOnce]
  | cons it rest ih => simp [flattenOnce, ih]

/-- C1: `flattenWorkout(items, r)` (for any `r ≥ 1`) makes `r` outer passes
over `items` in order (it is the concatenation of `r` copies of the single
pass, which itself is the in-order concatenation of each item's
contribution); a `Set` contributes the recursive flattening of its children
with the `Set`'s own repetitions, spliced in place; an `Exercise` or `Rest`
contributes itself verbatim; an empty list contributes the empty sequence;
a `Set` repeated `r₁` times whose only child is a `Set` repeated `r₂` times
contributes `r₁ * r₂` copies of the inner content in document order,
outer-repeat-major.  (Determinism and finiteness are immediate: the
embedding is a total function into finite lists of `Exercise`/`Rest`
leaves.) -/
theorem flattenWorkout_C1 (items : List WorkoutItem) (r : Nat) (hr : 1 ≤ r) :
    flattenWorkout items r = (List.replicate r (flattenOnce items)).flatten
    ∧ flattenOnce items = (items.map flattenItem).flatten
    ∧ (∀ i reps children nm,
        flattenItem (.set i reps children nm) = flattenWorkout children reps)
    ∧ (∀ e, flattenItem (.exercise e) = [FlatItem.exercise e])
    ∧ (∀ rs, flattenItem (.rest rs) = [FlatItem.rest rs])
    ∧ flattenWorkout [] r = []
    ∧ (∀ i₁ r₁ i₂ r₂ cs n₁ n₂,
        flattenItem (.set i₁ r₁ [.set i₂ r₂ cs n₂] n₁)
          = (List.replicate (r₁ * r₂) (flattenOnce cs)).flatten) := by
  refine ⟨joinN_eq_flatten_replicate r _, flattenOnce_eq_flatMap items, ?_, ?_, ?_, ?_, ?_⟩
  · intro i reps children nm
    simp [flattenItem, flattenWorkout]
  · intro e
    simp [flattenItem]
  · intro rs
    simp [flattenItem]
  · simp [flattenWorkout, flattenOnce, joinN_nil]
  · intro i₁ r₁ i₂ r₂ cs n₁ n₂
    rw [← joinN_eq_flatten_replicate, ← joinN_mul]
    simp [flattenItem, flattenOnce]

def witnessItems : List WorkoutItem :=
  [.exercise ⟨"e1", .running, 30, some .high, none⟩,
   .set "s1" 2 [.rest ⟨"r1", 15, none⟩] none]

theorem flattenWorkout_C1_witness :
    1 ≤ 2 ∧ flattenWorkout witnessItems 2
      = (List.replicate 2 (flattenOnce witnessItems)).flatten :=
  ⟨by decide, (flattenWorkout_C1 witnessItems 2 (by decide)).1⟩

/-- The source's `calculateFinalIntensity(type, intensity = "medium")`: the nested
switch in `timer-storage`; the inner `default` arms are dead for the
three-valued level union, and any type other than walking/running
(i.e. `"rest"`) falls to the outer `default: return 1`. -/
def calculateFinalIntensity : ExerciseType → IntensityLevel → Nat
  | .walking, .low => 1
  | .walking, .medium => 2
  | .walking, .high => 3
  | .running, .low => 3
  | .running, .medium => 4
  | .running, .high => 5
  | .rest, _ => 1

/-- The source's `getRestIntensity()`: rest is always 1. -/
def getRestIntensity : Nat := 1

/-- The source's `getWarmupCooldownIntensity()`: warmup and cooldown are always 2. -/
def getWarmupCooldownIntensity : Nat := 2

/-- C4: the intensity calculators reproduce the spec table exactly:
walking maps low/medium/high to 1/2/3, running to 3/4/5, any other type
(rest) to 1; `getRestIntensity` is constantly 1 and
`getWarmupCooldownIntensity` constantly 2; the calculators are pure
functions (they are plain total functions in the embedding), and the
defaulted level is `medium` (the table rows at `.medium` are the
defaulted results). -/
theorem intensity_C4 :
    calculateFinalIntensity .walking .low = 1
    ∧ calculateFinalIntensity .walking .medium = 2
    ∧ calculateFinalIntensity .walking .high = 3
    ∧ calculateFinalIntensity .running .low = 3
    ∧ calculateFinalIntensity .running .medium = 4
    ∧ calculateFinalIntensity .running .high = 5
    ∧ (∀ lv, calculateFinalIntensity .rest lv = 1)
    ∧ getRestIntensity = 1
    ∧ getWarmupCooldownIntensity = 2 := by
  refine ⟨rfl, rfl, rfl, rfl, rfl, rfl, ?_, rfl, rfl⟩
  intro lv
  cases lv <;> rfl

/-- The source's `sum(duration)` over a flattened workout:
`flattenedWorkout.reduce((sum, item) => sum + item.duration, 0)`. -/
def sumDurations (l : List FlatItem) : Nat :=
  l.foldl (fun sum item => sum + item.duration) 0

theorem sumDurations_eq (l : List FlatItem) :
    sumDurations l = (l.map FlatItem.duration).sum := by
  have h : ∀ (l : List FlatItem) (n : Nat),
      l.foldl (fun sum item => sum + item.duration) n
        = n + (l.map FlatItem.duration).sum := by
    intro l
    induction l with
    | nil => simp
    | cons x xs ih => intro n; simp [ih, Nat.add_assoc]
  simpa using h l 0

theorem sumDurations_cons (x : FlatItem) (l : List FlatItem) :
    sumDurations (x :: l) = x.duration + sumDurations l := by
  simp [sumDurations_eq, List.map_cons, List.sum_cons]

/-- The source's `calculateTotalTime(workout)`:
warmup + flattened main duration + cooldown. -/
def calculateTotalTime (w : WorkoutPlan) : Nat :=
  w.warmupTime + sumDurations (flattenWorkout w.items 1) + w.cooldownTime

/-- The source's `countIntervals(workout)`: the flattened length, plus one for a
positive warmup, plus one for a positive cooldown. -/
def countIntervals (w : WorkoutPlan) : Nat :=
  let count := (flattenWorkout w.items 1).length
  let count := if 0 < w.warmupTime then count + 1 else count
  if 0 < w.cooldownTime then count + 1 else count

/-- The `TimerExercise` interface of the timer page: an
`Exercise & {startTime, endTime}`; rests spread to entries of type
`"rest"` with no intensity. -/
structure TimerExercise where
  id : String
  type : ExerciseType
  duration : Nat
  intensity : Option IntensityLevel
  name : Option String
  startTime : Nat
  endTime : Nat
deriving DecidableEq, Repr

/-- The source's `{...item, startTime: t, endTime: t + item.duration}` for a flattened
entry. -/
def TimerExercise.ofFlat (f : FlatItem) (t : Nat) : TimerExercise :=
  match f with
  | .exercise e => ⟨e.id, e.type, e.duration, e.intensity, e.name, t, t + e.duration⟩
  | .rest r => ⟨r.id, .rest, r.duration, none, r.name, t, t + r.duration⟩

/-- The timer page's main loop annotating flattened entries with the
running `timelineCurrentTime`. -/
def timelineOfFlat : List FlatItem → Nat → List TimerExercise
  | [], _ => []
  | f :: fs, t => TimerExercise.ofFlat f t :: timelineOfFlat fs (t + f.duration)

/-- The `completeTimeline` construction of the timer page: a synthetic
warmup step when `warmupTime > 0`, the annotated flattened main workout,
and a synthetic cooldown step when `cooldownTime > 0` (both synthetic
steps have type `"walking"` and no intensity). -/
def completeTimeline (w : WorkoutPlan) : List TimerExercise :=
  let flat := flattenWorkout w.items 1
  let warmupPart : List TimerExercise :=
    if 0 < w.warmupTime then
      [⟨"warmup", .walking, w.warmupTime, none, some "웜업", 0, w.warmupTime⟩]
    else []
  let t₁ := if 0 < w.warmupTime then w.warmupTime else 0
  let mainPart := timelineOfFlat flat t₁
  let t₂ := t₁ + sumDurations flat
  let cooldownPart : List TimerExercise :=
    if 0 < w.cooldownTime then
      [⟨"cooldown", .walking, w.cooldownTime, none, some "쿨다운", t₂, t₂ + w.cooldownTime⟩]
    else []
  warmupPart ++ mainPart ++ cooldownPart

theorem ofFlat_endTime (f : FlatItem) (t : Nat) :
    (TimerExercise.ofFlat f t).endTime = t + f.duration := by
  cases f <;> rfl

theorem timelineOfFlat_ne_nil {fs : List FlatItem} (h : fs ≠ []) (t : Nat) :
    timelineOfFlat fs t ≠ [] := by
  cases fs with
  | nil => exact absurd rfl h
  | cons f fs => simp [timelineOfFlat]

theorem timelineOfFlat_length (fs : List FlatItem) (t : Nat) :
    (timelineOfFlat fs t).length = fs.length := by
  induction fs generalizing t with
  | nil => rfl
  | cons f fs ih => simp [timelineOfFlat, ih]

theorem timelineOfFlat_getLast? (fs : List FlatItem) (h : fs ≠ []) (t : Nat) :
    ((timelineOfFlat fs t).getLast?).map TimerExercise.endTime
      = some (t + sumDurations fs) := by
  induction fs generalizing t with
  | nil => exact absurd rfl h
  | cons f fs ih =>
    cases fs with
    | nil =>
      simp [timelineOfFlat, ofFlat_endTime, sumDurations_cons, sumDurations]
    | cons g gs =>
      have ih' := ih (by simp) (t + f.duration)
      simp only [timelineOfFlat] at ih' ⊢
      rw [List.getLast?_cons_cons, ih']
      congr 1
      simp only [sumDurations_cons]
      omega

theorem warmupTime_if (w : WorkoutPlan) :
    (if 0 < w.warmupTime then w.warmupTime else 0) = w.warmupTime := by
  by_cases h : 0 < w.warmupTime <;> simp [h] <;> omega

/-- C2: `calculateTotalTime` is warmup + the summed durations of the
flattened items + cooldown, and it coincides with the `endTime` of the
last entry of the timer page's `completeTimeline` (or 0 when that
timeline is empty). -/
theorem calculateTotalTime_C2 (w : WorkoutPlan) :
    calculateTotalTime w
      = w.warmupTime + sumDurations (flattenWorkout w.items 1) + w.cooldownTime
    ∧ calculateTotalTime w
      = (((completeTimeline w).getLast?).map TimerExercise.endTime).getD 0 := by
  refine ⟨rfl, ?_⟩
  unfold completeTimeline calculateTotalTime
  simp only []
  by_cases hc : 0 < w.cooldownTime
  · rw [if_pos hc, List.getLast?_concat]
    simp [warmupTime_if w]
  · rw [if_neg hc, List.append_nil]
    have hc0 : w.cooldownTime = 0 := by omega
    by_cases hf : flattenWorkout w.items 1 = []
    · rw [hf]
      by_cases hw : 0 < w.warmupTime
      · rw [if_pos hw]
        simp [timelineOfFlat, sumDurations, hc0]
      · have hw0 : w.warmupTime = 0 := by omega
        rw [if_neg hw]
        simp [timelineOfFlat, sumDurations, hc0, hw0]
    · rw [List.getLast?_append_of_ne_nil _ (timelineOfFlat_ne_nil hf _),
        timelineOfFlat_getLast? _ hf]
      simp [warmupTime_if w, hc0]

/-- An entry of the view page's `timelineData`: a flattened entry (or a
synthetic warmup/cooldown) annotated with offsets and the computed
`finalIntensity`. -/
structure ViewStep where
  id : String
  type : ExerciseType
  intensity : Option IntensityLevel
  duration : Nat
  startTime : Nat
  endTime : Nat
  name : Option String
  isWarmupCooldown : Bool
  finalIntensity : Nat
deriving DecidableEq, Repr

/-- The source's `{...item, startTime, endTime, finalIntensity:
calculateFinalIntensity(item.type, item.intensity || "medium")}`. -/
def ViewStep.ofFlat (f : FlatItem) (t : Nat) : ViewStep :=
  match f with
  | .exercise e =>
    ⟨e.id, e.type, e.intensity, e.duration, t, t + e.duration, e.name, false,
      calculateFinalIntensity e.type (e.intensity.getD .medium)⟩
  | .rest r =>
    ⟨r.id, .rest, none, r.duration, t, t + r.duration, r.name, false,
      calculateFinalIntensity .rest .medium⟩

/-- The view page's main loop annotating flattened entries with offsets
and final intensity. -/
def timelineDataOfFlat : List FlatItem → Nat → List ViewStep
  | [], _ => []
  | f :: fs, t => ViewStep.ofFlat f t :: timelineDataOfFlat fs (t + f.duration)

/-- The view page's `timelineData`: warmup entry when `warmupTime > 0`,
annotated flattened main workout, cooldown entry when `cooldownTime > 0`. -/
def timelineData (w : WorkoutPlan) : List ViewStep :=
  let flat := flattenWorkout w.items 1
  let warmupPart : List ViewStep :=
    if 0 < w.warmupTime then
      [⟨"warmup", .walking, some .low, w.warmupTime, 0, w.warmupTime,
        some "웜업", true, getWarmupCooldownIntensity⟩]
    else []
  let t₁ := if 0 < w.warmupTime then w.warmupTime else 0
  let mainPart := timelineDataOfFlat flat t₁
  let t₂ := t₁ + sumDurations flat
  let cooldownPart : List ViewStep :=
    if 0 < w.cooldownTime then
      [⟨"cooldown", .walking, some .low, w.cooldownTime, t₂, t₂ + w.cooldownTime,
        some "쿨다운", true, getWarmupCooldownIntensity⟩]
    else []
  warmupPart ++ mainPart ++ cooldownPart

theorem timelineDataOfFlat_length (fs : List FlatItem) (t : Nat) :
    (timelineDataOfFlat fs t).length = fs.length := by
  induction fs generalizing t with
  | nil => rfl
  | cons f fs ih => simp [timelineDataOfFlat, ih]

/-- C3: `countIntervals` is the flattened length plus one for a positive
warmup plus one for a positive cooldown, and it equals the number of
steps of the view page's `timelineData` as well as of the timer page's
`completeTimeline` (both of which prepend a warmup step only when
`warmupTime > 0` and append a cooldown step only when
`cooldownTime > 0`). -/
theorem countIntervals_C3 (w : WorkoutPlan) :
    countIntervals w = (timelineData w).length
    ∧ countIntervals w = (completeTimeline w).length
    ∧ countIntervals w = (flattenWorkout w.items 1).length
        + (if 0 < w.warmupTime then 1 else 0)
        + (if 0 < w.cooldownTime then 1 else 0) := by
  unfold countIntervals timelineData completeTimeline
  by_cases hw : 0 < w.warmupTime <;> by_cases hc : 0 < w.cooldownTime <;>
    simp [hw, hc, timelineDataOfFlat_length, timelineOfFlat_length] <;> omega

/-- The possible outcomes of reading the `localStorage` slot: the key may
be absent, the stored string may fail to parse (`JSON.parse` throws,
caught and logged), or it parses to a list of plans. -/
inductive StoredData where
  | missing
  | corrupt
  | parsed (ws : List WorkoutPlan)

/-- The source's `getWorkouts()`: the parsed list, or `[]` when the slot is absent or
the read/parse throws (the `catch` branch). -/
def getWorkouts : StoredData → List WorkoutPlan
  | .missing => []
  | .corrupt => []
  | .parsed ws => ws

/-- The source's `getWorkout(id)`: `workouts.find((w) => w.id === id) || null`. -/
def getWorkout (st : StoredData) (id : String) : Option WorkoutPlan :=
  (getWorkouts st).find? (fun w => w.id == id)

/-- What the timer page renders once loading finished: the not-found
terminal view when `getWorkout` returned null, otherwise the timer UI for
the loaded plan. -/
inductive TimerPageView where
  | notFound
  | timer (w : WorkoutPlan)

/-- The timer page's post-load branch: `if (!workout) return <not found>`. -/
def timerPageRender (st : StoredData) (id : String) : TimerPageView :=
  match getWorkout st id with
  | none => .notFound
  | some w => .timer w

/-- C9: looking up an id that no stored plan carries yields an explicit
`none` (never an exception: `getWorkout` is a total function, and a
missing or corrupted storage read degrades to the empty list), and the
timer page then renders the not-found terminal view instead of starting
playback. -/
theorem getWorkout_C9 (st : StoredData) (id : String)
    (h : ∀ w ∈ getWorkouts st, w.id ≠ id) :
    getWorkout st id = none
    ∧ timerPageRender st id = .notFound
    ∧ getWorkouts .missing = []
    ∧ getWorkouts .corrupt = [] := by
  have hnone : getWorkout st id = none := by
    unfold getWorkout
    rw [List.find?_eq_none]
    intro w hw
    simp [h w hw]
  refine ⟨hnone, ?_, rfl, rfl⟩
  unfold timerPageRender
  rw [hnone]

/-- The `direction` argument of the editor's `moveItem`. -/
inductive MoveDir where
  | up
  | down
deriving DecidableEq, Repr

mutual

/-- The editor's `moveInItems` helper: find the item by id at this level;
if absent, recurse into each `Set`'s children; if present, swap it with
its previous (direction `"up"`, only when not first) or next (direction
`"down"`, only when not last) sibling, otherwise return the level
unchanged. -/
def moveInItems (itemId : String) (dir : MoveDir) (items : List WorkoutItem) :
    List WorkoutItem :=
  match items.findIdx? (fun it => it.id == itemId) with
  | none => moveMap itemId dir items
  | some idx =>
    match dir with
    | .up =>
      if 0 < idx then
        match items[idx - 1]?, items[idx]? with
        | some prev, some cur => (items.set (idx - 1) cur).set idx prev
        | _, _ => items
      else items
    | .down =>
      if idx < items.length - 1 then
        match items[idx]?, items[idx + 1]? with
        | some cur, some next => (items.set idx next).set (idx + 1) cur
        | _, _ => items
      else items
termination_by (sizeOf items, 1)

/-- The not-found branch's `items.map(...)`: recurse into sets, keep
other items. -/
def moveMap (itemId : String) (dir : MoveDir) : List WorkoutItem → List WorkoutItem
  | [] => []
  | it :: rest => moveOne itemId dir it :: moveMap itemId dir rest
termination_by l => (sizeOf l, 0)

/-- One element of the not-found branch's map. -/
def moveOne (itemId : String) (dir : MoveDir) : WorkoutItem → WorkoutItem
  | .set i reps children nm => .set i reps (moveInItems itemId dir children) nm
  | it => it
termination_by i => (sizeOf i, 0)

end

/-- The page-level `moveItem`: rewrite the plan's item tree. -/
def moveItem (w : WorkoutPlan) (itemId : String) (dir : MoveDir) : WorkoutPlan :=
  { w with items := moveInItems itemId dir w.items }

/-- A node of the item tree with its child list forgotten: the data that
a sibling swap must leave untouched for every node of the tree. -/
inductive NodeView where
  | exercise (e : Exercise)
  | rest (r : Rest)
  | setHead (id : String) (repetitions : Nat) (name : Option String)
deriving DecidableEq, Repr

mutual

/-- The views of one node and all its descendants. -/
def nodeViewsItem : WorkoutItem → List NodeView
  | .exercise e => [.exercise e]
  | .rest r => [.rest r]
  | .set i reps children nm => .setHead i reps nm :: nodeViews children
termination_by i => (sizeOf i, 0)

/-- The views of every node of an item tree, in document order. -/
def nodeViews : List WorkoutItem → List NodeView
  | [] => []
  | it :: rest => nodeViewsItem it ++ nodeViews rest
termination_by l => (sizeOf l, 1)

end

theorem nodeViews_append (l₁ l₂ : List WorkoutItem) :
    nodeViews (l₁ ++ l₂) = nodeViews l₁ ++ nodeViews l₂ := by
  induction l₁ with
  | nil => simp [nodeViews]
  | cons it rest ih => simp [nodeViews, ih]

theorem findIdx?_decomp_aux (p : α → Bool) (l₁ : List α) (a : α) (l₂ : List α)
    (h₁ : ∀ x ∈ l₁, p x = false) (h₂ : p a = true) (i : Nat) :
    List.findIdx? p (l₁ ++ a :: l₂) i = some (i + l₁.length) := by
  induction l₁ generalizing i with
  | nil => simp [List.findIdx?_cons, h₂]
  | cons x xs ih =>
    have hx := h₁ x (by simp)
    rw [List.cons_append, List.findIdx?_cons, hx]
    simp only [Bool.false_eq_true, if_false]
    rw [ih (fun y hy => h₁ y (by simp [hy])) (i + 1)]
    congr 1
    simp
    omega

theorem findIdx?_eq_some_decomp (p : α → Bool) (l : List α) (i idx : Nat)
    (h : List.findIdx? p l i = some idx) :
    ∃ l₁ a l₂, l = l₁ ++ a :: l₂ ∧ i + l₁.length = idx ∧ p a = true
      ∧ ∀ x ∈ l₁, p x = false := by
  induction l generalizing i with
  | nil => simp [List.findIdx?] at h
  | cons x xs ih =>
    rw [List.findIdx?_cons] at h
    cases hx : p x with
    | true =>
      rw [hx, if_pos rfl] at h
      exact ⟨[], x, xs, rfl, by simpa using h, hx, by simp⟩
    | false =>
      rw [hx] at h
      simp only [Bool.false_eq_true, if_false] at h
      obtain ⟨l₁, a, l₂, rfl, hlen, hpa, hall⟩ := ih (i + 1) h
      refine ⟨x :: l₁, a, l₂, rfl, by simp; omega, hpa, ?_⟩
      intro y hy
      rcases List.mem_cons.mp hy with h' | h'
      · exact h' ▸ hx
      · exact hall y h'

theorem getElem?_append_cons (pre : List α) (x : α) (rest : List α) :
    (pre ++ x :: rest)[pre.length]? = some x := by
  induction pre with
  | nil => simp
  | cons p ps ih => simpa using ih

theorem getElem?_append_cons₁ (pre : List α) (x y : α) (rest : List α) :
    (pre ++ x :: y :: rest)[pre.length + 1]? = some y := by
  induction pre with
  | nil => simp
  | cons p ps ih => simpa using ih

theorem set_append_cons (pre : List α) (x y : α) (rest : List α) :
    ((pre ++ x :: rest).set pre.length y) = pre ++ y :: rest := by
  induction pre with
  | nil => simp
  | cons p ps ih => simpa using ih

theorem set_append_cons₁ (pre : List α) (x y z : α) (rest : List α) :
    ((pre ++ x :: y :: rest).set (pre.length + 1) z) = pre ++ x :: z :: rest := by
  induction pre with
  | nil => simp
  | cons p ps ih => simpa using ih

theorem moveInItems_found (itemId : String) (dir : MoveDir)
    (items : List WorkoutItem) (idx : Nat)
    (hfind : items.findIdx? (fun it => it.id == itemId) = some idx) :
    moveInItems itemId dir items
      = match dir with
        | .up =>
          if 0 < idx then
            match items[idx - 1]?, items[idx]? with
            | some prev, some cur => (items.set (idx - 1) cur).set idx prev
            | _, _ => items
          else items
        | .down =>
          if idx < items.length - 1 then
            match items[idx]?, items[idx + 1]? with
            | some cur, some next => (items.set idx next).set (idx + 1) cur
            | _, _ => items
          else items := by
  rw [moveInItems, hfind]

theorem moveInItems_swap_up (itemId : String) (pre : List WorkoutItem)
    (b a : WorkoutItem) (l₂ : List WorkoutItem)
    (hfind : (pre ++ b :: a :: l₂).findIdx? (fun it => it.id == itemId)
      = some (pre.length + 1)) :
    moveInItems itemId .up (pre ++ b :: a :: l₂) = pre ++ a :: b :: l₂ := by
  rw [moveInItems_found itemId .up _ _ hfind]
  simp only [Nat.add_sub_cancel, Nat.zero_lt_succ, if_pos,
    getElem?_append_cons, getElem?_append_cons₁]
  rw [set_append_cons, set_append_cons₁]

theorem moveInItems_swap_down (itemId : String) (l₁ : List WorkoutItem)
    (a b : WorkoutItem) (post : List WorkoutItem)
    (hfind : (l₁ ++ a :: b :: post).findIdx? (fun it => it.id == itemId)
      = some l₁.length) :
    moveInItems itemId .down (l₁ ++ a :: b :: post) = l₁ ++ b :: a :: post := by
  rw [moveInItems_found itemId .down _ _ hfind]
  have hlen : l₁.length < (l₁ ++ a :: b :: post).length - 1 := by
    simp
  rw [if_pos hlen]
  simp only [getElem?_append_cons, getElem?_append_cons₁]
  rw [set_append_cons, set_append_cons₁]

theorem moveInItems_first_up (itemId : String) (items : List WorkoutItem)
    (hfind : items.findIdx? (fun it => it.id == itemId) = some 0) :
    moveInItems itemId .up items = items := by
  rw [moveInItems_found itemId .up _ _ hfind]
  simp

theorem moveInItems_last_down (itemId : String) (l₁ : List WorkoutItem)
    (a : WorkoutItem)
    (hfind : (l₁ ++ [a]).findIdx? (fun it => it.id == itemId)
      = some l₁.length) :
    moveInItems itemId .down (l₁ ++ [a]) = l₁ ++ [a] := by
  rw [moveInItems_found itemId .down _ _ hfind]
  have hlen : ¬ l₁.length < (l₁ ++ [a]).length - 1 := by
    simp
  rw [if_neg hlen]

theorem multisetCoe_append (l₁ l₂ : List α) :
    ((l₁ ++ l₂ : List α) : Multiset α) = ↑l₁ + ↑l₂ := rfl

theorem nodeViews_cons (it : WorkoutItem) (rest : List WorkoutItem) :
    nodeViews (it :: rest) = nodeViewsItem it ++ nodeViews rest := by
  rw [nodeViews]

theorem nodeViews_swap (pre : List WorkoutItem) (x y : WorkoutItem)
    (post : List WorkoutItem) :
    (nodeViews (pre ++ x :: y :: post) : Multiset NodeView)
      = ↑(nodeViews (pre ++ y :: x :: post)) := by
  rw [nodeViews_append, nodeViews_append, nodeViews_cons, nodeViews_cons,
    nodeViews_cons, nodeViews_cons]
  simp only [multisetCoe_append]
  abel

theorem moveInItems_views (itemId : String) (dir : MoveDir) :
    ∀ (n : Nat) (items : List WorkoutItem), sizeOf items ≤ n →
      (nodeViews (moveInItems itemId dir items) : Multiset NodeView)
        = ↑(nodeViews items) := by
  intro n
  induction n using Nat.strong_induction_on with
  | _ n IH =>
    have hOne : ∀ it : WorkoutItem, sizeOf it ≤ n →
        (nodeViewsItem (moveOne itemId dir it) : Multiset NodeView)
          = ↑(nodeViewsItem it) := by
      intro it hit
      cases it with
      | exercise e => simp [moveOne]
      | rest r => simp [moveOne]
      | set i reps children nm =>
        have hch : sizeOf children < n := by
          have : sizeOf children < sizeOf (WorkoutItem.set i reps children nm) := by
            simp
            omega
          omega
        rw [moveOne, nodeViewsItem, nodeViewsItem]
        have hrec := IH (sizeOf children) hch children (le_refl _)
        rw [← Multiset.cons_coe, ← Multiset.cons_coe, hrec]
    have hMap : ∀ l : List WorkoutItem, sizeOf l ≤ n →
        (nodeViews (moveMap itemId dir l) : Multiset NodeView) = ↑(nodeViews l) := by
      intro l
      induction l with
      | nil => intro _; rw [moveMap]
      | cons it rest ihl =>
        intro hl
        have hsz : sizeOf (it :: rest) = 1 + sizeOf it + sizeOf rest := by simp
        have h1 : sizeOf it ≤ n := by omega
        have h2 : sizeOf rest ≤ n := by omega
        rw [moveMap, nodeViews_cons, nodeViews_cons,
          multisetCoe_append, multisetCoe_append, hOne it h1, ihl h2]
    intro items hsz
    cases hfind : items.findIdx? (fun it => it.id == itemId) with
    | none =>
      rw [moveInItems, hfind]
      exact hMap items hsz
    | some idx =>
      obtain ⟨l₁, a, l₂, rfl, hlen, hpa, hall⟩ :=
        findIdx?_eq_some_decomp _ _ _ _ hfind
      cases dir with
      | up =>
        rcases List.eq_nil_or_concat l₁ with rfl | ⟨pre, b, rfl⟩
        · have hidx : idx = 0 := by simpa using hlen.symm
          rw [moveInItems_first_up itemId _ (hidx ▸ hfind)]
        · have hre : (pre.concat b) ++ a :: l₂ = pre ++ b :: a :: l₂ := by
            simp
          have hidx : idx = pre.length + 1 := by
            simp at hlen
            omega
          rw [hre] at hfind ⊢
          rw [hidx] at hfind
          rw [moveInItems_swap_up itemId pre b a l₂ hfind]
          exact nodeViews_swap pre a b l₂
      | down =>
        cases l₂ with
        | nil =>
          have hidx : idx = l₁.length := by simpa using hlen.symm
          rw [show l₁ ++ [a] = l₁ ++ [a] from rfl] at hfind
          rw [moveInItems_last_down itemId l₁ a (hidx ▸ hfind)]
        | cons b post =>
          have hidx : idx = l₁.length := by simpa using hlen.symm
          rw [moveInItems_swap_down itemId l₁ a b post (hidx ▸ hfind)]
          exact nodeViews_swap l₁ b a post

/-- C10: `moveItem` is a sibling-local permutation.  Given the sibling
list containing the item (`items = l₁ ++ a :: l₂` with `a` the first item
carrying the id), moving up when it is first (or down when it is last)
returns the list unchanged; otherwise it swaps the item with its
immediately preceding (respectively following) sibling, carrying both
subtrees wholesale and leaving `l₁`/`l₂` untouched; and in every case
(also when the id only occurs nested deeper) the multiset of nodes of the
tree — each node with its own data, nested subtrees moved intact — is
preserved. -/
theorem moveItem_C10 (itemId : String) (dir : MoveDir)
    (items l₁ : List WorkoutItem) (a : WorkoutItem) (l₂ : List WorkoutItem)
    (hdec : items = l₁ ++ a :: l₂) (hid : a.id = itemId)
    (hnot : ∀ x ∈ l₁, x.id ≠ itemId) :
    (dir = .up → l₁ = [] → moveInItems itemId dir items = items)
    ∧ (dir = .down → l₂ = [] → moveInItems itemId dir items = items)
    ∧ (∀ pre b, l₁ = pre ++ [b] → dir = .up →
        moveInItems itemId dir items = pre ++ a :: b :: l₂)
    ∧ (∀ b post, l₂ = b :: post → dir = .down →
        moveInItems itemId dir items = l₁ ++ b :: a :: post)
    ∧ (nodeViews (moveInItems itemId dir items) : Multiset NodeView)
        = ↑(nodeViews items) := by
  subst hdec
  have hfind : (l₁ ++ a :: l₂).findIdx? (fun it => it.id == itemId)
      = some l₁.length := by
    have := findIdx?_decomp_aux (fun it => it.id == itemId) l₁ a l₂
      (fun x hx => beq_eq_false_iff_ne.mpr (hnot x hx))
      (by simp [hid]) 0
    simpa using this
  refine ⟨?_, ?_, ?_, ?_,
    moveInItems_views itemId dir (sizeOf (l₁ ++ a :: l₂)) _ (le_refl _)⟩
  · intro hdir hl₁
    subst hdir
    subst hl₁
    exact moveInItems_first_up itemId _ hfind
  · intro hdir hl₂
    subst hdir
    subst hl₂
    exact moveInItems_last_down itemId l₁ a hfind
  · intro pre b hpre hdir
    subst hdir
    subst hpre
    have hre : (pre ++ [b]) ++ a :: l₂ = pre ++ b :: a :: l₂ := by simp
    rw [hre] at hfind ⊢
    have hlen : (pre ++ [b]).length = pre.length + 1 := by simp
    rw [hlen] at hfind
    exact moveInItems_swap_up itemId pre b a l₂ hfind
  · intro b post hpost hdir
    subst hdir
    subst hpost
    exact moveInItems_swap_down itemId l₁ a b post hfind

def mvA : WorkoutItem := .exercise ⟨"a1", .running, 60, some .medium, none⟩

def mvB : WorkoutItem := .rest ⟨"b1", 30, none⟩

theorem moveItem_C10_witness :
    ([mvA, mvB] = [mvA] ++ mvB :: []) ∧ mvB.id = "b1"
    ∧ (∀ x ∈ [mvA], x.id ≠ "b1")
    ∧ moveInItems "b1" .up [mvA, mvB] = [] ++ mvB :: mvA :: [] :=
  ⟨rfl, rfl, by decide,
    (moveItem_C10 "b1" .up [mvA, mvB] [mvA] mvB [] rfl rfl
      (by decide)).2.2.1 [] mvA rfl rfl⟩

theorem getWorkout_C9_witness :
    (∀ w ∈ getWorkouts (.parsed [⟨"p1", "HIIT", "", 300, 300, [], 0, 0⟩]),
        w.id ≠ "p2")
    ∧ getWorkout (.parsed [⟨"p1", "HIIT", "", 300, 300, [], 0, 0⟩]) "p2" = none :=
  ⟨by decide,
    (getWorkout_C9 (.parsed [⟨"p1", "HIIT", "", 300, 300, [], 0, 0⟩]) "p2"
      (by decide)).1⟩

/-!
The playback state machine of the timer page.  React state and refs are
modelled as fields of one `SessionState`; `setState` updates are
synchronous field updates; `Date.now()` values arrive as `now`
(milliseconds) parameters of the events.  The environment facts that the
page guarantees by construction are carried as hypotheses of the
`SessionStep` relation rather than inside the handlers: the playback
interval exists only while `timerState === "running"` and a current
exercise exists; the countdown interval exists only during the two
countdown states; the start button is rendered only when a current
exercise exists; the skip button only in the running state; ticks arrive
at a 100 ms cadence, so the integer second count of the running segment
is observed at every value — in particular the completion tick reads
exactly the step's duration.
-/

/-- The `TimerState` union of the timer page. -/
inductive TimerState where
  | ready
  | countdownStart
  | countdownTransition
  | running
  | paused
  | completed
deriving DecidableEq, Repr

/-- The `ExerciseStatus` union of the timer page. -/
inductive ExerciseStatus where
  | pending
  | running
  | completed
  | skipped
deriving DecidableEq, Repr

/-- The timer page's mutable session state: React state plus the four
refs (`startTimeRef`, `pausedTimeRef`, `currentExerciseStartRef`; the
interval handles are represented by the state-dependent guards of
`SessionStep`). -/
structure SessionState where
  timerState : TimerState
  currentExerciseIndex : Nat
  remainingTime : Nat
  totalElapsedTime : Nat
  countdownValue : Nat
  nextExerciseIndex : Nat
  exerciseStatuses : List ExerciseStatus
  currentExerciseElapsed : Nat
  exerciseElapsedTimes : List Nat
  startTimeMs : Nat
  pausedTimeSec : Nat
  currentExerciseStartMs : Nat
deriving DecidableEq, Repr

/-- The source's `completeTimeline[i].duration`, 0 out of range. -/
def stepDur (tl : List TimerExercise) (i : Nat) : Nat :=
  (tl[i]?.map TimerExercise.duration).getD 0

/-- The source's `completeTimeline[i].startTime`, 0 out of range. -/
def stepStart (tl : List TimerExercise) (i : Nat) : Nat :=
  (tl[i]?.map TimerExercise.startTime).getD 0

/-- The source's `completeTimeline[i].endTime`, 0 out of range. -/
def stepEnd (tl : List TimerExercise) (i : Nat) : Nat :=
  (tl[i]?.map TimerExercise.endTime).getD 0

/-- The source's `completeTimeline.map((_, index) => index === 0 ? "running" : "pending")`. -/
def initialStatuses (tl : List TimerExercise) : List ExerciseStatus :=
  (List.range tl.length).map (fun j => if j = 0 then .running else .pending)

/-- The source's `prev.map((_, index) => index === 0 ? "running" : "pending")` in
`confirmStop`. -/
def resetStatuses (l : List ExerciseStatus) : List ExerciseStatus :=
  (List.range l.length).map (fun j => if j = 0 then .running else .pending)

/-- The state after the timer page mounted and its initialization effects
ran: `ready`, index 0, first status `running` and the rest `pending`,
per-step elapsed times zeroed, remaining time the first step's duration
(0 when the timeline is empty, in which case no control is rendered). -/
def initialState (tl : List TimerExercise) : SessionState :=
  { timerState := .ready
    currentExerciseIndex := 0
    remainingTime := stepDur tl 0
    totalElapsedTime := 0
    countdownValue := 0
    nextExerciseIndex := 0
    exerciseStatuses := initialStatuses tl
    currentExerciseElapsed := 0
    exerciseElapsedTimes := List.replicate tl.length 0
    startTimeMs := 0
    pausedTimeSec := 0
    currentExerciseStartMs := 0 }

/-- The source's `startCountdown(type, targetIndex)`: set the countdown value (5 for
start, 3 for transition), enter the corresponding countdown state, and
record the target index when given. -/
def startCountdown (isStart : Bool) (targetIndex : Option Nat) (s : SessionState) :
    SessionState :=
  { s with
    countdownValue := if isStart then 5 else 3
    timerState := if isStart then .countdownStart else .countdownTransition
    nextExerciseIndex := targetIndex.getD s.nextExerciseIndex }

/-- One tick of the 1-second countdown interval: decrement; at zero, stop
the countdown and enter `running` — for a start countdown from the
beginning (refs at `now`, paused time 0), for a transition countdown at
the recorded next index (refs at `now`, paused time the accumulated total
elapsed, step elapsed reset, and the index-change effect loads the new
step's duration as remaining time). -/
def countdownTick (tl : List TimerExercise) (now : Nat) (s : SessionState) :
    SessionState :=
  let newValue := s.countdownValue - 1
  if newValue = 0 then
    if s.timerState = .countdownStart then
      { s with
        countdownValue := newValue
        startTimeMs := now
        currentExerciseStartMs := now
        pausedTimeSec := 0
        currentExerciseElapsed := 0
        timerState := .running }
    else
      { s with
        countdownValue := newValue
        currentExerciseIndex := s.nextExerciseIndex
        startTimeMs := now
        currentExerciseStartMs := now
        pausedTimeSec := s.totalElapsedTime
        currentExerciseElapsed := 0
        timerState := .running
        remainingTime :=
          match tl[s.nextExerciseIndex]? with
          | some ex => ex.duration
          | none => s.remainingTime }
  else { s with countdownValue := newValue }

/-- One tick of the 100 ms playback interval while running: recompute
total elapsed (wall-clock seconds since the segment start plus the
carried `pausedTimeRef`), the current step's elapsed seconds and its
remaining time; on completion mark the step completed and the next step
running, then either start a 3-second transition countdown (when a next
step exists) or finish the workout. -/
def tickAt (tl : List TimerExercise) (now : Nat) (s : SessionState) :
    SessionState :=
  match tl[s.currentExerciseIndex]? with
  | none => s
  | some ex =>
    let elapsed := (now - s.startTimeMs) / 1000 + s.pausedTimeSec
    let currentElapsed := (now - s.currentExerciseStartMs) / 1000
    let s₁ := { s with
      totalElapsedTime := elapsed
      currentExerciseElapsed := currentElapsed
      remainingTime := ex.duration - currentElapsed }
    if ex.duration ≤ currentElapsed then
      let statuses₁ := s.exerciseStatuses.set s.currentExerciseIndex .completed
      let statuses₂ :=
        if s.currentExerciseIndex + 1 < statuses₁.length then
          statuses₁.set (s.currentExerciseIndex + 1) .running
        else statuses₁
      if s.currentExerciseIndex < tl.length - 1 then
        startCountdown false (some (s.currentExerciseIndex + 1))
          { s₁ with exerciseStatuses := statuses₂ }
      else
        { s₁ with exerciseStatuses := statuses₂, timerState := .completed }
    else s₁

/-- Whether a playback tick at `now` plays the warning cue
(`currentRemaining === 3 || === 2 || === 1`, computed exactly as in the
tick handler, with JS subtraction modelled on `Int`). -/
def tickBeeps (tl : List TimerExercise) (now : Nat) (s : SessionState) : Bool :=
  match tl[s.currentExerciseIndex]? with
  | none => false
  | some ex =>
    let currentElapsed := (now - s.currentExerciseStartMs) / 1000
    let r : Int := (ex.duration : Int) - (currentElapsed : Int)
    r == 3 || r == 2 || r == 1

/-- The warning cues fired over a schedule of playback ticks, each tick
also advancing the state. -/
def countBeepTicks (tl : List TimerExercise) : SessionState → List Nat → Nat
  | _, [] => 0
  | s, t :: ts =>
    (if tickBeeps tl t s then 1 else 0) + countBeepTicks tl (tickAt tl t s) ts

/-- The source's `handleSkip`: only when a next step exists — record the current
step's elapsed seconds, mark it skipped and the next step running, jump
the total elapsed time to the skipped step's `endTime` (also carried into
`pausedTimeRef`), and start a 3-second transition countdown to the next
index. -/
def handleSkip (tl : List TimerExercise) (s : SessionState) : SessionState :=
  if s.currentExerciseIndex < tl.length - 1 then
    match tl[s.currentExerciseIndex]? with
    | none => s
    | some ex =>
      let statuses₁ := s.exerciseStatuses.set s.currentExerciseIndex .skipped
      let statuses₂ :=
        if s.currentExerciseIndex + 1 < statuses₁.length then
          statuses₁.set (s.currentExerciseIndex + 1) .running
        else statuses₁
      startCountdown false (some (s.currentExerciseIndex + 1))
        { s with
          exerciseElapsedTimes :=
            s.exerciseElapsedTimes.set s.currentExerciseIndex
              s.currentExerciseElapsed
          exerciseStatuses := statuses₂
          totalElapsedTime := ex.endTime
          pausedTimeSec := ex.endTime }
  else s

/-- The source's `handleStart`: from `ready` begin the 5-second start countdown; from
`paused` resume, restoring the wall-clock refs so that the current step's
elapsed seconds continue from the frozen value. -/
def handleStart (now : Nat) (s : SessionState) : SessionState :=
  match s.timerState with
  | .ready => startCountdown true none s
  | .paused =>
    { s with
      startTimeMs := now
      currentExerciseStartMs := now - 1000 * s.currentExerciseElapsed
      timerState := .running }
  | _ => s

/-- The source's `handlePause`: freeze the accumulated total elapsed time into
`pausedTimeRef` and enter `paused`. -/
def handlePause (s : SessionState) : SessionState :=
  if s.timerState = .running then
    { s with pausedTimeSec := s.totalElapsedTime, timerState := .paused }
  else s

/-- The source's `confirmStop`: back to `ready` at index 0 with all counters reset,
the per-step elapsed list cleared, and the statuses reset to the initial
shape. -/
def confirmStop (tl : List TimerExercise) (s : SessionState) : SessionState :=
  { s with
    timerState := .ready
    currentExerciseIndex := 0
    remainingTime := stepDur tl 0
    totalElapsedTime := 0
    currentExerciseElapsed := 0
    exerciseElapsedTimes := []
    pausedTimeSec := 0
    exerciseStatuses := resetStatuses s.exerciseStatuses }

/-- One externally observable step of the session, with the environment
facts the page guarantees (which interval is installed, which buttons are
rendered, the 100 ms tick cadence, wall-clock monotonicity) as
hypotheses. -/
inductive SessionStep (tl : List TimerExercise) : SessionState → SessionState → Prop where
  | startBtn (s : SessionState) (now : Nat) :
      s.timerState = .ready → tl ≠ [] →
      SessionStep tl s (handleStart now s)
  | resumeBtn (s : SessionState) (now : Nat) :
      s.timerState = .paused → 1000 * s.currentExerciseElapsed ≤ now →
      SessionStep tl s (handleStart now s)
  | pauseBtn (s : SessionState) :
      SessionStep tl s (handlePause s)
  | stopBtn (s : SessionState) :
      SessionStep tl s (confirmStop tl s)
  | skipBtn (s : SessionState) :
      s.timerState = .running →
      SessionStep tl s (handleSkip tl s)
  | tickEv (s : SessionState) (now : Nat) :
      s.timerState = .running →
      s.currentExerciseIndex < tl.length →
      s.startTimeMs ≤ now →
      (now - s.currentExerciseStartMs) / 1000 ≤ stepDur tl s.currentExerciseIndex →
      SessionStep tl s (tickAt tl now s)
  | ctickEv (s : SessionState) (now : Nat) :
      (s.timerState = .countdownStart ∨ s.timerState = .countdownTransition) →
      SessionStep tl s (countdownTick tl now s)

/-- The states a session can be in, starting from the mounted page. -/
def Reachable (tl : List TimerExercise) (s : SessionState) : Prop :=
  Relation.ReflTransGen (SessionStep tl) (initialState tl) s

/-- Contiguity of a timeline built by the running-offset construction:
each entry starts where instructed, ends after its duration, and hands
its end to the next entry. -/
def ChainedFrom : Nat → List TimerExercise → Prop
  | _, [] => True
  | t, ex :: rest =>
    ex.startTime = t ∧ ex.endTime = t + ex.duration ∧ ChainedFrom ex.endTime rest

theorem getD_set_self (l : List α) (i : Nat) (v d : α) (h : i < l.length) :
    (l.set i v).getD i d = v := by
  simp [List.getD_eq_getElem?_getD, List.getElem?_set, h]

theorem getD_set_ne (l : List α) (i j : Nat) (v d : α) (h : i ≠ j) :
    (l.set i v).getD j d = l.getD j d := by
  simp [List.getD_eq_getElem?_getD, List.getElem?_set, h]

theorem getD_map_range (f : Nat → α) (n j : Nat) (d : α) :
    ((List.range n).map f).getD j d = if j < n then f j else d := by
  by_cases h : j < n
  · simp [List.getD_eq_getElem?_getD, List.getElem?_map, List.getElem?_range h, h]
  · rw [List.getD_eq_getElem?_getD, List.getElem?_map,
      List.getElem?_eq_none (by simpa using h)]
    simp [h]

theorem chained_facts {l : List TimerExercise} :
    ∀ {t : Nat}, ChainedFrom t l → ∀ i, i < l.length →
      stepEnd l i = stepStart l i + stepDur l i
      ∧ (i + 1 < l.length → stepStart l (i + 1) = stepEnd l i)
      ∧ (i = 0 → stepStart l 0 = t) := by
  induction l with
  | nil => intro t _ i hi; simp at hi
  | cons ex rest ih =>
    intro t hch i hi
    obtain ⟨hst, hend, hrest⟩ := hch
    cases i with
    | zero =>
      refine ⟨?_, ?_, ?_⟩
      · simp [stepEnd, stepStart, stepDur]
        omega
      · intro h1
        cases rest with
        | nil => simp at h1
        | cons ex₂ rest₂ =>
          obtain ⟨hst₂, _, _⟩ := hrest
          simp [stepStart, stepEnd]
          omega
      · intro _
        simp [stepStart, hst]
    | succ i =>
      have hi' : i < rest.length := by simpa using hi
      have := ih hrest i hi'
      refine ⟨?_, ?_, ?_⟩
      · simpa [stepEnd, stepStart, stepDur] using this.1
      · intro h1
        have h1' : i + 1 < rest.length := by simpa using h1
        simpa [stepStart, stepEnd] using this.2.1 h1'
      · intro h
        exact absurd h (Nat.succ_ne_zero i)

theorem ofFlat_startTime (f : FlatItem) (t : Nat) :
    (TimerExercise.ofFlat f t).startTime = t := by
  cases f <;> rfl

theorem ofFlat_duration (f : FlatItem) (t : Nat) :
    (TimerExercise.ofFlat f t).duration = f.duration := by
  cases f <;> rfl

theorem timelineOfFlat_append_chained (fs : List FlatItem)
    (C : List TimerExercise) :
    ∀ t, ChainedFrom (t + sumDurations fs) C →
      ChainedFrom t (timelineOfFlat fs t ++ C) := by
  induction fs with
  | nil =>
    intro t hC
    have h0 : sumDurations ([] : List FlatItem) = 0 := rfl
    rw [h0, Nat.add_zero] at hC
    simpa [timelineOfFlat] using hC
  | cons f fs ih =>
    intro t hC
    rw [timelineOfFlat, List.cons_append]
    refine ⟨ofFlat_startTime f t, ?_, ?_⟩
    · rw [ofFlat_endTime, ofFlat_duration]
    · rw [ofFlat_endTime]
      refine ih (t + f.duration) ?_
      have : t + f.duration + sumDurations fs = t + sumDurations (f :: fs) := by
        rw [sumDurations_cons]
        omega
      rw [this]
      exact hC

theorem completeTimeline_chained (w : WorkoutPlan) :
    ChainedFrom 0 (completeTimeline w) := by
  unfold completeTimeline
  by_cases hw : 0 < w.warmupTime <;> by_cases hc : 0 < w.cooldownTime <;>
    simp only [hw, hc, if_pos, if_neg, if_true, if_false, List.nil_append,
      List.append_nil, List.cons_append, List.singleton_append]
  · refine ⟨rfl, by simp, ?_⟩
    dsimp only
    exact timelineOfFlat_append_chained _ _ _ ⟨rfl, rfl, trivial⟩
  · refine ⟨rfl, by simp, ?_⟩
    dsimp only
    have := timelineOfFlat_append_chained (flattenWorkout w.items 1) []
      w.warmupTime trivial
    simpa using this
  · exact timelineOfFlat_append_chained _ _ _ ⟨rfl, rfl, trivial⟩
  · have := timelineOfFlat_append_chained (flattenWorkout w.items 1) [] 0 trivial
    simpa using this

/-- The claimed shape of the per-step status array: the step at `k` is
`running`, everything before it is `completed` or `skipped`, everything
after it is `pending`. -/
def StatusShape (l : List ExerciseStatus) (k : Nat) : Prop :=
  k < l.length
  ∧ l.getD k .pending = .running
  ∧ (∀ j, j < k → l.getD j .pending = .completed ∨ l.getD j .pending = .skipped)
  ∧ (∀ j, k < j → j < l.length → l.getD j .pending = .pending)

theorem shape_range (n : Nat) (h : 0 < n) :
    StatusShape ((List.range n).map
      (fun j => if j = 0 then ExerciseStatus.running else .pending)) 0 := by
  refine ⟨by simpa using h, ?_, ?_, ?_⟩
  · rw [getD_map_range]
    simp [h]
  · intro j hj
    omega
  · intro j hj hjlen
    rw [getD_map_range]
    have hjn : j < n := by simpa using hjlen
    simp [hjn]
    omega

theorem shape_advance (l : List ExerciseStatus) (i : Nat) (v : ExerciseStatus)
    (hv : v = .completed ∨ v = .skipped)
    (hsh : StatusShape l i) (hnext : i + 1 < l.length) :
    StatusShape ((l.set i v).set (i + 1) .running) (i + 1) := by
  obtain ⟨hk, hrun, hbefore, hafter⟩ := hsh
  refine ⟨by simpa using hnext, ?_, ?_, ?_⟩
  · rw [getD_set_self]
    simpa using hnext
  · intro j hj
    by_cases hji : j = i
    · subst hji
      rw [getD_set_ne _ _ _ _ _ (by omega), getD_set_self _ _ _ _ hk]
      exact hv
    · rw [getD_set_ne _ _ _ _ _ (by omega), getD_set_ne _ _ _ _ _ (by omega)]
      exact hbefore j (by omega)
  · intro j hj hjlen
    rw [getD_set_ne _ _ _ _ _ (by omega), getD_set_ne _ _ _ _ _ (by omega)]
    exact hafter j (by omega) (by simpa using hjlen)

/-- The inductive invariant of the playback session over a non-empty
contiguous timeline: lengths agree, and per state the status array has
the single-running shape at the step the machine is working on, with the
elapsed-time bookkeeping consistent with the timeline offsets. -/
def SessionInv (tl : List TimerExercise) (s : SessionState) : Prop :=
  s.exerciseStatuses.length = tl.length ∧
  match s.timerState with
  | .ready =>
      s.currentExerciseIndex = 0 ∧ s.totalElapsedTime = 0
      ∧ s.remainingTime = stepDur tl 0
      ∧ StatusShape s.exerciseStatuses 0
  | .countdownStart =>
      s.currentExerciseIndex = 0 ∧ s.totalElapsedTime = 0
      ∧ s.remainingTime = stepDur tl 0
      ∧ StatusShape s.exerciseStatuses 0
  | .running =>
      s.currentExerciseIndex < tl.length
      ∧ StatusShape s.exerciseStatuses s.currentExerciseIndex
      ∧ s.totalElapsedTime
          = stepStart tl s.currentExerciseIndex + s.currentExerciseElapsed
      ∧ s.currentExerciseElapsed ≤ stepDur tl s.currentExerciseIndex
      ∧ s.remainingTime
          = stepDur tl s.currentExerciseIndex - s.currentExerciseElapsed
      ∧ ∃ b, s.startTimeMs = s.currentExerciseStartMs + 1000 * b
          ∧ s.pausedTimeSec = stepStart tl s.currentExerciseIndex + b
  | .paused =>
      s.currentExerciseIndex < tl.length
      ∧ StatusShape s.exerciseStatuses s.currentExerciseIndex
      ∧ s.totalElapsedTime
          = stepStart tl s.currentExerciseIndex + s.currentExerciseElapsed
      ∧ s.currentExerciseElapsed ≤ stepDur tl s.currentExerciseIndex
      ∧ s.remainingTime
          = stepDur tl s.currentExerciseIndex - s.currentExerciseElapsed
      ∧ s.pausedTimeSec
          = stepStart tl s.currentExerciseIndex + s.currentExerciseElapsed
  | .countdownTransition =>
      s.nextExerciseIndex = s.currentExerciseIndex + 1
      ∧ s.nextExerciseIndex < tl.length
      ∧ StatusShape s.exerciseStatuses s.nextExerciseIndex
      ∧ s.totalElapsedTime = stepEnd tl s.currentExerciseIndex
  | .completed => True

theorem inv_initial (tl : List TimerExercise) (hne : tl ≠ []) :
    SessionInv tl (initialState tl) := by
  have hlen : 0 < tl.length := List.length_pos.mpr hne
  refine ⟨by simp [initialState, initialStatuses], ?_⟩
  simp only [initialState]
  refine ⟨?_, ?_, ?_, ?_⟩
  · trivial
  · trivial
  · trivial
  · exact shape_range tl.length hlen

theorem inv_startBtn (tl : List TimerExercise) (s : SessionState) (now : Nat)
    (hInv : SessionInv tl s) (hst : s.timerState = .ready) :
    SessionInv tl (handleStart now s) := by
  obtain ⟨hlen, hmain⟩ := hInv
  rw [hst] at hmain
  simp only [handleStart, hst, startCountdown]
  exact ⟨by simpa using hlen, by simpa using hmain⟩

theorem inv_resumeBtn (tl : List TimerExercise) (s : SessionState) (now : Nat)
    (hInv : SessionInv tl s) (hst : s.timerState = .paused)
    (hnow : 1000 * s.currentExerciseElapsed ≤ now) :
    SessionInv tl (handleStart now s) := by
  obtain ⟨hlen, hmain⟩ := hInv
  rw [hst] at hmain
  obtain ⟨hi, hsh, htot, hle, hrem, hpt⟩ := hmain
  simp only [handleStart, hst]
  refine ⟨by simpa using hlen, ?_⟩
  refine ⟨by simpa using hi, by simpa using hsh, by simpa using htot,
    by simpa using hle, by simpa using hrem,
    ⟨s.currentExerciseElapsed, ?_, by simpa using hpt⟩⟩
  simp only []
  omega

theorem inv_pauseBtn (tl : List TimerExercise) (s : SessionState)
    (hInv : SessionInv tl s) :
    SessionInv tl (handlePause s) := by
  by_cases hst : s.timerState = .running
  · obtain ⟨hlen, hmain⟩ := hInv
    rw [hst] at hmain
    obtain ⟨hi, hsh, htot, hle, hrem, b, hb, hpt⟩ := hmain
    simp only [handlePause, hst, if_pos]
    refine ⟨by simpa using hlen, ?_⟩
    refine ⟨by simpa using hi, by simpa using hsh, by simpa using htot,
      by simpa using hle, by simpa using hrem, by simpa using htot⟩
  · simpa [handlePause, hst] using hInv

theorem inv_stopBtn (tl : List TimerExercise) (s : SessionState)
    (hne : tl ≠ []) (hInv : SessionInv tl s) :
    SessionInv tl (confirmStop tl s) := by
  obtain ⟨hlen, _⟩ := hInv
  have hlen0 : 0 < s.exerciseStatuses.length := by
    rw [hlen]
    exact List.length_pos.mpr hne
  simp only [confirmStop]
  refine ⟨by simpa [resetStatuses] using hlen, ?_⟩
  refine ⟨rfl, rfl, rfl, ?_⟩
  have := shape_range s.exerciseStatuses.length hlen0
  exact this

theorem inv_skipBtn (tl : List TimerExercise) (s : SessionState)
    (hInv : SessionInv tl s) (hst : s.timerState = .running) :
    SessionInv tl (handleSkip tl s) := by
  obtain ⟨hlen, hmain⟩ := hInv
  rw [hst] at hmain
  obtain ⟨hi, hsh, htot, hle, hrem, b, hb, hpt⟩ := hmain
  by_cases hguard : s.currentExerciseIndex < tl.length - 1
  · have hget : tl[s.currentExerciseIndex]?
        = some (tl.get ⟨s.currentExerciseIndex, hi⟩) := by
      simp [List.getElem?_eq_getElem hi]
    have hnext : s.currentExerciseIndex + 1 < tl.length := by omega
    have hnext' : s.currentExerciseIndex + 1
        < (s.exerciseStatuses.set s.currentExerciseIndex .skipped).length := by
      simpa [hlen] using hnext
    simp only [handleSkip, hguard, if_pos, hget, startCountdown, hnext', if_true]
    refine ⟨?_, ?_⟩
    · simpa using hlen
    · refine ⟨by simp, by simpa using hnext, ?_, ?_⟩
      · have := shape_advance s.exerciseStatuses s.currentExerciseIndex .skipped
          (Or.inr rfl) hsh (by simpa [hlen] using hnext)
        simpa using this
      · simp [stepEnd, hget]
  · simp only [handleSkip, hguard, if_neg, if_false]
    refine ⟨hlen, ?_⟩
    rw [hst]
    exact ⟨hi, hsh, htot, hle, hrem, b, hb, hpt⟩

theorem inv_ctick (tl : List TimerExercise) (s : SessionState) (now : Nat)
    (hne : tl ≠ []) (hch : ChainedFrom 0 tl) (hInv : SessionInv tl s)
    (hst : s.timerState = .countdownStart ∨ s.timerState = .countdownTransition) :
    SessionInv tl (countdownTick tl now s) := by
  obtain ⟨hlen, hmain⟩ := hInv
  have hlenpos : 0 < tl.length := List.length_pos.mpr hne
  by_cases hz : s.countdownValue - 1 = 0
  · rcases hst with hcs | hct
    · rw [hcs] at hmain
      obtain ⟨hi0, htot0, hrem0, hsh⟩ := hmain
      have hstart0 : stepStart tl 0 = 0 := (chained_facts hch 0 hlenpos).2.2 rfl
      simp only [countdownTick, hz, if_pos, hcs, if_true]
      refine ⟨by simpa using hlen, ?_⟩
      refine ⟨by simpa [hi0] using hlenpos, ?_, ?_, ?_, ?_, ⟨0, by simp, ?_⟩⟩
      · simpa [hi0] using hsh
      · simpa [hi0, hstart0] using htot0
      · simp
      · simpa [hi0] using hrem0
      · simp [hi0, hstart0]
    · rw [hct] at hmain
      obtain ⟨hni, hnlt, hsh, htot⟩ := hmain
      have hilt : s.currentExerciseIndex < tl.length := by omega
      have hnlt' : s.currentExerciseIndex + 1 < tl.length := by omega
      have hstep : stepStart tl (s.currentExerciseIndex + 1)
          = stepEnd tl s.currentExerciseIndex :=
        (chained_facts hch s.currentExerciseIndex hilt).2.1 hnlt'
      have hget : tl[s.nextExerciseIndex]?
          = some (tl.get ⟨s.nextExerciseIndex, hnlt⟩) := by
        simp [List.getElem?_eq_getElem hnlt]
      simp only [countdownTick, hz, if_pos, hct, if_false, hget]
      refine ⟨by simpa using hlen, ?_⟩
      have : (TimerState.countdownTransition = TimerState.countdownStart) = False := by
        simp
      simp only [this, if_false]
      refine ⟨by simpa using hnlt, by simpa using hsh, ?_, by simp, ?_,
        ⟨0, by simp, ?_⟩⟩
      · rw [hni, hstep]
        simpa using htot
      · simp [stepDur, hget]
      · rw [hni, hstep]
        simpa using htot
  · rcases hst with hcs | hct
    · rw [hcs] at hmain
      simp only [countdownTick, hz, if_false, if_neg]
      exact ⟨by simpa using hlen, by simpa [hcs] using hmain⟩
    · rw [hct] at hmain
      simp only [countdownTick, hz, if_false, if_neg]
      exact ⟨by simpa using hlen, by simpa [hct] using hmain⟩

theorem inv_tick (tl : List TimerExercise) (s : SessionState) (now : Nat)
    (hch : ChainedFrom 0 tl) (hInv : SessionInv tl s)
    (hst : s.timerState = .running)
    (hi : s.currentExerciseIndex < tl.length)
    (hnow : s.startTimeMs ≤ now)
    (hcad : (now - s.currentExerciseStartMs) / 1000
      ≤ stepDur tl s.currentExerciseIndex) :
    SessionInv tl (tickAt tl now s) := by
  obtain ⟨hlen, hmain⟩ := hInv
  rw [hst] at hmain
  obtain ⟨hi', hsh, htot, hle, hrem, b, hb, hpt⟩ := hmain
  have hget : tl[s.currentExerciseIndex]?
      = some (tl.get ⟨s.currentExerciseIndex, hi⟩) := by
    simp [List.getElem?_eq_getElem hi]
  have hdur : stepDur tl s.currentExerciseIndex
      = (tl.get ⟨s.currentExerciseIndex, hi⟩).duration := by
    simp [stepDur, hget]
  have hbc : 1000 * b ≤ now - s.currentExerciseStartMs := by omega
  have hblec : b ≤ (now - s.currentExerciseStartMs) / 1000 := by
    calc b = 1000 * b / 1000 := by omega
    _ ≤ (now - s.currentExerciseStartMs) / 1000 := Nat.div_le_div_right hbc
  have hsub : (now - s.startTimeMs) / 1000
      = (now - s.currentExerciseStartMs) / 1000 - b := by
    rw [hb]
    rw [show now - (s.currentExerciseStartMs + 1000 * b)
      = now - s.currentExerciseStartMs - 1000 * b by omega]
    exact Nat.sub_mul_div _ 1000 b hbc
  have helapsed : (now - s.startTimeMs) / 1000 + s.pausedTimeSec
      = stepStart tl s.currentExerciseIndex
        + (now - s.currentExerciseStartMs) / 1000 := by
    rw [hsub, hpt]
    omega
  by_cases hfin : (tl.get ⟨s.currentExerciseIndex, hi⟩).duration
      ≤ (now - s.currentExerciseStartMs) / 1000
  · have hc : (now - s.currentExerciseStartMs) / 1000
        = (tl.get ⟨s.currentExerciseIndex, hi⟩).duration := by
      rw [hdur] at hcad
      omega
    have hendEq : stepEnd tl s.currentExerciseIndex
        = stepStart tl s.currentExerciseIndex
          + stepDur tl s.currentExerciseIndex :=
      (chained_facts hch s.currentExerciseIndex hi).1
    by_cases hnn : s.currentExerciseIndex < tl.length - 1
    · have hnext : s.currentExerciseIndex + 1 < tl.length := by omega
      have hnext' : s.currentExerciseIndex + 1
          < (s.exerciseStatuses.set s.currentExerciseIndex .completed).length := by
        simpa [hlen] using hnext
      simp only [tickAt, hget, hfin, if_pos, hnn, hnext', if_true, startCountdown]
      refine ⟨by simpa using hlen, ?_⟩
      refine ⟨by simp, by simpa using hnext, ?_, ?_⟩
      · have := shape_advance s.exerciseStatuses s.currentExerciseIndex .completed
          (Or.inl rfl) hsh (by simpa [hlen] using hnext)
        simpa using this
      · simp only []
        rw [helapsed, hc, hendEq, hdur]
    · simp only [tickAt, hget, hfin, if_pos, hnn, if_false]
      have hnext' : ¬ (s.currentExerciseIndex + 1
          < (s.exerciseStatuses.set s.currentExerciseIndex .completed).length) := by
        simp only [List.length_set, hlen]
        omega
      simp only [hnext', if_false]
      exact ⟨by simpa using hlen, trivial⟩
  · simp only [tickAt, hget, hfin, if_false, hst]
    refine ⟨by simpa using hlen, ?_⟩
    refine ⟨by simpa using hi, by simpa using hsh, by simpa using helapsed,
      ?_, by simp [hdur], ⟨b, by simpa using hb, by simpa using hpt⟩⟩
    simpa using hcad

theorem inv_step (tl : List TimerExercise) (hne : tl ≠ [])
    (hch : ChainedFrom 0 tl) (s s' : SessionState)
    (hInv : SessionInv tl s) (hstep : SessionStep tl s s') :
    SessionInv tl s' := by
  cases hstep with
  | startBtn now hst _ => exact inv_startBtn tl s now hInv hst
  | resumeBtn now hst hnow => exact inv_resumeBtn tl s now hInv hst hnow
  | pauseBtn => exact inv_pauseBtn tl s hInv
  | stopBtn => exact inv_stopBtn tl s hne hInv
  | skipBtn hst => exact inv_skipBtn tl s hInv hst
  | tickEv now hst hi hnow hcad => exact inv_tick tl s now hch hInv hst hi hnow hcad
  | ctickEv now hst => exact inv_ctick tl s now hne hch hInv hst

theorem inv_reachable (tl : List TimerExercise) (hne : tl ≠ [])
    (hch : ChainedFrom 0 tl) (s : SessionState) (hr : Reachable tl s) :
    SessionInv tl s := by
  induction hr with
  | refl => exact inv_initial tl hne
  | tail _ hstep ih => exact inv_step tl hne hch _ _ ih hstep

/-- C5: along every playback trace (initialization, ticks, skip, stop,
pause, resume, countdowns) over a non-empty timeline, whenever the
machine is in the running, paused or countdown states the status array
has exactly one `running` entry (position `k`), every index before `k` is
`completed` or `skipped`, and every index after `k` is `pending` (and the
array has one entry per timeline step). -/
theorem statusInvariant_C5 (w : WorkoutPlan) (s : SessionState)
    (hne : completeTimeline w ≠ [])
    (hr : Reachable (completeTimeline w) s)
    (hst : s.timerState = .running ∨ s.timerState = .paused
      ∨ s.timerState = .countdownStart ∨ s.timerState = .countdownTransition) :
    s.exerciseStatuses.length = (completeTimeline w).length
    ∧ ∃ k, k < s.exerciseStatuses.length
      ∧ (∀ j, j < s.exerciseStatuses.length →
          (s.exerciseStatuses.getD j .pending = .running ↔ j = k))
      ∧ (∀ j, j < k → s.exerciseStatuses.getD j .pending = .completed
          ∨ s.exerciseStatuses.getD j .pending = .skipped)
      ∧ (∀ j, k < j → j < s.exerciseStatuses.length →
          s.exerciseStatuses.getD j .pending = .pending) := by
  obtain ⟨hlen, hmain⟩ :=
    inv_reachable _ hne (completeTimeline_chained w) s hr
  refine ⟨hlen, ?_⟩
  have hshape : ∃ k, StatusShape s.exerciseStatuses k := by
    rcases hst with h | h | h | h <;> rw [h] at hmain
    · exact ⟨_, hmain.2.1⟩
    · exact ⟨_, hmain.2.1⟩
    · exact ⟨_, hmain.2.2.2⟩
    · exact ⟨_, hmain.2.2.1⟩
  obtain ⟨k, hk, hrun, hbef, haft⟩ := hshape
  refine ⟨k, hk, ?_, hbef, haft⟩
  intro j hj
  constructor
  · intro hjr
    by_contra hjk
    rcases Nat.lt_or_ge j k with hlt | hge
    · rcases hbef j hlt with h | h <;> rw [hjr] at h <;> cases h
    · have hkj : k < j := by omega
      have := haft j hkj hj
      rw [hjr] at this
      cases this
  · rintro rfl
    exact hrun

def planEx : WorkoutPlan :=
  ⟨"w1", "Example", "", 10, 10,
    [.exercise ⟨"e1", .running, 30, some .medium, none⟩], 0, 0⟩

def tlEx : List TimerExercise :=
  [⟨"warmup", .walking, 10, none, some "웜업", 0, 10⟩,
   ⟨"e1", .running, 30, some .medium, none, 10, 40⟩,
   ⟨"cooldown", .walking, 10, none, some "쿨다운", 40, 50⟩]

theorem completeTimeline_planEx : completeTimeline planEx = tlEx := by
  simp [completeTimeline, flattenWorkout, flattenOnce, flattenItem, joinN,
    sumDurations, timelineOfFlat, TimerExercise.ofFlat, FlatItem.duration,
    planEx, tlEx]

def c5state : SessionState := handleStart 0 (initialState tlEx)

theorem c5state_reachable : Reachable (completeTimeline planEx) c5state := by
  rw [completeTimeline_planEx]
  exact Relation.ReflTransGen.single
    (SessionStep.startBtn (initialState tlEx) 0 rfl (by decide))

theorem statusInvariant_C5_witness :
    completeTimeline planEx ≠ []
    ∧ (c5state.timerState = .running ∨ c5state.timerState = .paused
      ∨ c5state.timerState = .countdownStart
      ∨ c5state.timerState = .countdownTransition)
    ∧ (c5state.exerciseStatuses.length = (completeTimeline planEx).length
      ∧ ∃ k, k < c5state.exerciseStatuses.length
        ∧ (∀ j, j < c5state.exerciseStatuses.length →
            (c5state.exerciseStatuses.getD j .pending = .running ↔ j = k))
        ∧ (∀ j, j < k → c5state.exerciseStatuses.getD j .pending = .completed
            ∨ c5state.exerciseStatuses.getD j .pending = .skipped)
        ∧ (∀ j, k < j → j < c5state.exerciseStatuses.length →
            c5state.exerciseStatuses.getD j .pending = .pending)) :=
  ⟨by rw [completeTimeline_planEx]; decide,
    Or.inr (Or.inr (Or.inl rfl)),
    statusInvariant_C5 planEx c5state
      (by rw [completeTimeline_planEx]; decide)
      c5state_reachable
      (Or.inr (Or.inr (Or.inl rfl)))⟩

/-- C6: from any reachable running state, skip is a no-op when no next
step exists; when a next step exists it records the current step's
elapsed seconds at the moment of skip into the per-step elapsed array,
marks the current step `skipped` and the next step `running`, enters the
3-second transition countdown targeting the next index (after whose three
ticks the machine is running at the next index), jumps the total elapsed
time to the skipped step's end offset, and the total elapsed time never
decreases across the skip. -/
theorem handleSkip_C6 (w : WorkoutPlan) (s : SessionState)
    (hne : completeTimeline w ≠ [])
    (hr : Reachable (completeTimeline w) s)
    (hst : s.timerState = .running) :
    (¬ s.currentExerciseIndex < (completeTimeline w).length - 1 →
      handleSkip (completeTimeline w) s = s)
    ∧ (s.currentExerciseIndex < (completeTimeline w).length - 1 →
      (handleSkip (completeTimeline w) s).exerciseElapsedTimes
          = s.exerciseElapsedTimes.set s.currentExerciseIndex
              s.currentExerciseElapsed
      ∧ (handleSkip (completeTimeline w) s).exerciseStatuses.getD
          s.currentExerciseIndex .pending = .skipped
      ∧ (handleSkip (completeTimeline w) s).exerciseStatuses.getD
          (s.currentExerciseIndex + 1) .pending = .running
      ∧ (handleSkip (completeTimeline w) s).timerState = .countdownTransition
      ∧ (handleSkip (completeTimeline w) s).nextExerciseIndex
          = s.currentExerciseIndex + 1
      ∧ (handleSkip (completeTimeline w) s).countdownValue = 3
      ∧ (handleSkip (completeTimeline w) s).totalElapsedTime
          = stepEnd (completeTimeline w) s.currentExerciseIndex
      ∧ s.totalElapsedTime ≤ (handleSkip (completeTimeline w) s).totalElapsedTime
      ∧ ∀ n₁ n₂ n₃,
          (countdownTick (completeTimeline w) n₃ (countdownTick (completeTimeline w) n₂
            (countdownTick (completeTimeline w) n₁
              (handleSkip (completeTimeline w) s)))).timerState = .running
          ∧ (countdownTick (completeTimeline w) n₃ (countdownTick (completeTimeline w) n₂
              (countdownTick (completeTimeline w) n₁
                (handleSkip (completeTimeline w) s)))).currentExerciseIndex
              = s.currentExerciseIndex + 1) := by
  obtain ⟨hlen, hmain⟩ :=
    inv_reachable _ hne (completeTimeline_chained w) s hr
  rw [hst] at hmain
  obtain ⟨hi, hsh, htot, hle, hrem, b, hb, hpt⟩ := hmain
  constructor
  · intro hguard
    simp only [handleSkip, hguard, if_neg, if_false]
  · intro hguard
    have hget : (completeTimeline w)[s.currentExerciseIndex]?
        = some ((completeTimeline w).get ⟨s.currentExerciseIndex, hi⟩) := by
      simp [List.getElem?_eq_getElem hi]
    have hnext : s.currentExerciseIndex + 1 < (completeTimeline w).length := by
      omega
    have hnext' : s.currentExerciseIndex + 1
        < (s.exerciseStatuses.set s.currentExerciseIndex .skipped).length := by
      simpa [hlen] using hnext
    have hlen' : s.currentExerciseIndex < s.exerciseStatuses.length := by
      omega
    have hendEq : stepEnd (completeTimeline w) s.currentExerciseIndex
        = stepStart (completeTimeline w) s.currentExerciseIndex
          + stepDur (completeTimeline w) s.currentExerciseIndex :=
      (chained_facts (completeTimeline_chained w) s.currentExerciseIndex hi).1
    have hskipEq : handleSkip (completeTimeline w) s
        = { s with
            exerciseElapsedTimes :=
              s.exerciseElapsedTimes.set s.currentExerciseIndex
                s.currentExerciseElapsed
            exerciseStatuses :=
              (s.exerciseStatuses.set s.currentExerciseIndex .skipped).set
                (s.currentExerciseIndex + 1) .running
            totalElapsedTime :=
              ((completeTimeline w).get ⟨s.currentExerciseIndex, hi⟩).endTime
            pausedTimeSec :=
              ((completeTimeline w).get ⟨s.currentExerciseIndex, hi⟩).endTime
            countdownValue := 3
            timerState := .countdownTransition
            nextExerciseIndex := s.currentExerciseIndex + 1 } := by
      simp only [handleSkip, hguard, if_pos, hget, startCountdown, hnext', if_true]
      simp
    rw [hskipEq]
    refine ⟨rfl, ?_, ?_, rfl, rfl, rfl, ?_, ?_, ?_⟩
    · rw [getD_set_ne _ _ _ _ _ (by omega), getD_set_self _ _ _ _ hlen']
    · rw [getD_set_self]
      exact hnext'
    · simp [stepEnd, hget]
    · have hlestep : s.totalElapsedTime
          ≤ stepEnd (completeTimeline w) s.currentExerciseIndex := by
        rw [hendEq, htot]
        omega
      simpa [stepEnd, hget] using hlestep
    · intro n₁ n₂ n₃
      exact ⟨rfl, rfl⟩

def c6state : SessionState :=
  tickAt tlEx 15000 (countdownTick tlEx 10000 (countdownTick tlEx 10000
    (countdownTick tlEx 10000 (tickAt tlEx 10000 (countdownTick tlEx 0
      (countdownTick tlEx 0 (countdownTick tlEx 0 (countdownTick tlEx 0
        (countdownTick tlEx 0 (handleStart 0 (initialState tlEx)))))))))))

theorem c6state_reachable : Reachable (completeTimeline planEx) c6state := by
  rw [completeTimeline_planEx]
  have h0 : Relation.ReflTransGen (SessionStep tlEx)
      (initialState tlEx) (initialState tlEx) := .refl
  have h1 := h0.tail (SessionStep.startBtn (initialState tlEx) 0 rfl (by decide))
  have h2 := h1.tail (SessionStep.ctickEv _ 0 (Or.inl rfl))
  have h3 := h2.tail (SessionStep.ctickEv _ 0 (Or.inl rfl))
  have h4 := h3.tail (SessionStep.ctickEv _ 0 (Or.inl rfl))
  have h5 := h4.tail (SessionStep.ctickEv _ 0 (Or.inl rfl))
  have h6 := h5.tail (SessionStep.ctickEv _ 0 (Or.inl rfl))
  have h7 := h6.tail
    (SessionStep.tickEv _ 10000 rfl (by decide) (by decide) (by decide))
  have h8 := h7.tail (SessionStep.ctickEv _ 10000 (Or.inr rfl))
  have h9 := h8.tail (SessionStep.ctickEv _ 10000 (Or.inr rfl))
  have h10 := h9.tail (SessionStep.ctickEv _ 10000 (Or.inr rfl))
  have h11 := h10.tail
    (SessionStep.tickEv _ 15000 rfl (by decide) (by decide) (by decide))
  exact h11

theorem handleSkip_C6_witness :
    completeTimeline planEx ≠ []
    ∧ c6state.timerState = .running
    ∧ c6state.currentExerciseIndex < (completeTimeline planEx).length - 1
    ∧ c6state.currentExerciseElapsed = 5
    ∧ (handleSkip (completeTimeline planEx) c6state).exerciseElapsedTimes
        = c6state.exerciseElapsedTimes.set c6state.currentExerciseIndex
            c6state.currentExerciseElapsed
    ∧ (handleSkip (completeTimeline planEx) c6state).timerState
        = .countdownTransition
    ∧ c6state.totalElapsedTime
        ≤ (handleSkip (completeTimeline planEx) c6state).totalElapsedTime :=
  ⟨by rw [completeTimeline_planEx]; decide, rfl,
    by rw [completeTimeline_planEx]; decide, rfl,
    ((handleSkip_C6 planEx c6state (by rw [completeTimeline_planEx]; decide)
      c6state_reachable rfl).2
        (by rw [completeTimeline_planEx]; decide)).1,
    ((handleSkip_C6 planEx c6state (by rw [completeTimeline_planEx]; decide)
      c6state_reachable rfl).2
        (by rw [completeTimeline_planEx]; decide)).2.2.2.1,
    ((handleSkip_C6 planEx c6state (by rw [completeTimeline_planEx]; decide)
      c6state_reachable rfl).2
        (by rw [completeTimeline_planEx]; decide)).2.2.2.2.2.2.2.1⟩

/-- C7: pause followed by immediate resume (and the next tick, at the
same wall-clock instant) is an identity on the elapsed-time state:
pausing freezes the total elapsed time, and after resuming, the next tick
reproduces exactly the pre-pause total elapsed time, current-step elapsed
time and remaining time — no time lost or double-counted (0 ≤ the tick
granularity). -/
theorem pauseResume_C7 (w : WorkoutPlan) (s : SessionState) (now : Nat)
    (hne : completeTimeline w ≠ [])
    (hr : Reachable (completeTimeline w) s)
    (hst : s.timerState = .running)
    (hnow : 1000 * s.currentExerciseElapsed ≤ now) :
    (handlePause s).totalElapsedTime = s.totalElapsedTime
    ∧ (tickAt (completeTimeline w) now
        (handleStart now (handlePause s))).totalElapsedTime
      = s.totalElapsedTime
    ∧ (tickAt (completeTimeline w) now
        (handleStart now (handlePause s))).currentExerciseElapsed
      = s.currentExerciseElapsed
    ∧ (tickAt (completeTimeline w) now
        (handleStart now (handlePause s))).remainingTime
      = s.remainingTime := by
  obtain ⟨hlen, hmain⟩ :=
    inv_reachable _ hne (completeTimeline_chained w) s hr
  rw [hst] at hmain
  obtain ⟨hi, hsh, htot, hle, hrem, b, hb, hpt⟩ := hmain
  have hget : (completeTimeline w)[s.currentExerciseIndex]?
      = some ((completeTimeline w).get ⟨s.currentExerciseIndex, hi⟩) := by
    simp [List.getElem?_eq_getElem hi]
  have hdur : stepDur (completeTimeline w) s.currentExerciseIndex
      = ((completeTimeline w).get ⟨s.currentExerciseIndex, hi⟩).duration := by
    simp [stepDur, hget]
  have hresume : handleStart now (handlePause s)
      = { s with
          pausedTimeSec := s.totalElapsedTime
          startTimeMs := now
          currentExerciseStartMs := now - 1000 * s.currentExerciseElapsed
          timerState := .running } := by
    simp only [handlePause, hst, if_pos, handleStart]
  have harith : (now - (now - 1000 * s.currentExerciseElapsed)) / 1000
      = s.currentExerciseElapsed := by
    rw [Nat.sub_sub_self hnow, Nat.mul_div_cancel_left _ (by norm_num)]
  refine ⟨by simp [handlePause, hst], ?_⟩
  rw [hresume]
  by_cases hfin : ((completeTimeline w).get ⟨s.currentExerciseIndex, hi⟩).duration
      ≤ (now - (now - 1000 * s.currentExerciseElapsed)) / 1000
  · by_cases hnn : s.currentExerciseIndex < (completeTimeline w).length - 1
    · simp only [tickAt, hget, hfin, if_pos, hnn, startCountdown]
      refine ⟨by simp, by simpa using harith, ?_⟩
      rw [hrem, hdur, harith]
    · simp only [tickAt, hget, hfin, if_pos, hnn, if_false]
      refine ⟨by simp, by simpa using harith, ?_⟩
      rw [hrem, hdur, harith]
  · simp only [tickAt, hget, hfin, if_false]
    refine ⟨by simp, by simpa using harith, ?_⟩
    rw [hrem, hdur, harith]

theorem pauseResume_C7_witness :
    completeTimeline planEx ≠ []
    ∧ c6state.timerState = .running
    ∧ 1000 * c6state.currentExerciseElapsed ≤ 123456
    ∧ (handlePause c6state).totalElapsedTime = c6state.totalElapsedTime
    ∧ (tickAt (completeTimeline planEx) 123456
        (handleStart 123456 (handlePause c6state))).totalElapsedTime
      = c6state.totalElapsedTime
    ∧ (tickAt (completeTimeline planEx) 123456
        (handleStart 123456 (handlePause c6state))).currentExerciseElapsed
      = c6state.currentExerciseElapsed
    ∧ (tickAt (completeTimeline planEx) 123456
        (handleStart 123456 (handlePause c6state))).remainingTime
      = c6state.remainingTime :=
  ⟨by rw [completeTimeline_planEx]; decide, rfl, by decide,
    (pauseResume_C7 planEx c6state 123456
      (by rw [completeTimeline_planEx]; decide) c6state_reachable rfl
      (by decide)).1,
    (pauseResume_C7 planEx c6state 123456
      (by rw [completeTimeline_planEx]; decide) c6state_reachable rfl
      (by decide)).2.1,
    (pauseResume_C7 planEx c6state 123456
      (by rw [completeTimeline_planEx]; decide) c6state_reachable rfl
      (by decide)).2.2.1,
    (pauseResume_C7 planEx c6state 123456
      (by rw [completeTimeline_planEx]; decide) c6state_reachable rfl
      (by decide)).2.2.2⟩

def planBeep : WorkoutPlan :=
  ⟨"w2", "Beep", "", 0, 0, [.exercise ⟨"b1", .running, 5, none, none⟩], 0, 0⟩

def tlBeep : List TimerExercise := [⟨"b1", .running, 5, none, none, 0, 5⟩]

theorem completeTimeline_planBeep : completeTimeline planBeep = tlBeep := by
  simp [completeTimeline, flattenWorkout, flattenOnce, flattenItem, joinN,
    sumDurations, timelineOfFlat, TimerExercise.ofFlat, FlatItem.duration,
    planBeep, tlBeep]

def c8state : SessionState :=
  countdownTick tlBeep 0 (countdownTick tlBeep 0 (countdownTick tlBeep 0
    (countdownTick tlBeep 0 (countdownTick tlBeep 0
      (handleStart 0 (initialState tlBeep))))))

/-- C8 (refuting the once-per-threshold claim): for the plan consisting of
one 5-second exercise, from the reachable running state at the start of
the step, the playback interval's own cue condition
(`currentRemaining === 3 || 2 || 1`, evaluated by the handler every
100 ms) fires at 30 of the 49 ticks of the step (`t = 100 … 4900 ms`) —
about ten per threshold, not once per threshold; in particular it fires
at both `t = 2000` and `t = 2100`, two consecutive ticks with the same
integer remaining time 3. -/
theorem beepCue_C8 :
    Reachable (completeTimeline planBeep) c8state
    ∧ c8state.timerState = .running
    ∧ countBeepTicks tlBeep c8state
        ((List.range 49).map (fun k => 100 * (k + 1))) = 30
    ∧ countBeepTicks tlBeep c8state
        ((List.range 10).map (fun k => 2000 + 100 * k)) = 10
    ∧ tickBeeps tlBeep 2000 c8state = true
    ∧ tickBeeps tlBeep 2100 (tickAt tlBeep 2000 c8state) = true := by
  refine ⟨?_, rfl, by decide, by decide, by decide, by decide⟩
  rw [completeTimeline_planBeep]
  have h0 : Relation.ReflTransGen (SessionStep tlBeep)
      (initialState tlBeep) (initialState tlBeep) := .refl
  have h1 := h0.tail
    (SessionStep.startBtn (initialState tlBeep) 0 rfl (by decide))
  have h2 := h1.tail (SessionStep.ctickEv _ 0 (Or.inl rfl))
  have h3 := h2.tail (SessionStep.ctickEv _ 0 (Or.inl rfl))
  have h4 := h3.tail (SessionStep.ctickEv _ 0 (Or.inl rfl))
  have h5 := h4.tail (SessionStep.ctickEv _ 0 (Or.inl rfl))
  have h6 := h5.tail (SessionStep.ctickEv _ 0 (Or.inl rfl))
  exact h6
